import Mathlib

/-!
# Verification of the `mutatis` mutation-selection engine

A shallow embedding of the core of the `mutatis` crate:

* `src/rng.rs` — the seedable random-number-generator wrapper (its
  underlying `SmallRng` is an external dependency; we model it as a
  concrete deterministic linear-congruential state machine, which is all
  the interface guarantees that the crate relies on: determinism and
  in-range draws).
* `src/error.rs` — the error taxonomy, including the internal-only
  `EarlyExit` sentinel.
* `src/lib.rs` — the two-phase counting/selection engine
  (`MutationContext::choose_and_apply_mutation`, `MutationSet::mutation`).
* `src/mutators.rs` and `src/mutators/core_impls.rs` — the leaf mutators
  (`bool`, the `ints!` macro instances, `unit`, `Option`, `Result`,
  ranged mutation).
* `src/check.rs` — the corpus-driven property-check harness.

A mutator's `mutate` method is embedded as a *mutation program*
(`MProg`): a straight-line sequence of candidate registrations
(`MutationSet::mutation` calls with `?`-propagation), terminated either
by `Ok(())` or by an early `Err(kind)` return.  The program a mutator
produces may depend on the current value and the shrink flag, exactly as
the Rust `mutate` method may branch on them.  Registration closures may
mutate the value and the random-number generator, may fail with a public
error kind, and may abort the process (for example when the external
`gen_range` is called on an empty range); an aborted run is `none`.
-/

namespace Mutatis

/-- Model of the pseudo-random-number-generator state.  The crate's
`Rng` wraps `rand::rngs::SmallRng`, an external dependency whose
internal algorithm is out of scope; only determinism matters here, so we
model the generator as a 64-bit linear-congruential state machine. -/
structure Rng where
  state : Nat
deriving DecidableEq, Repr

/-- One step of the generator: advance the 64-bit state and expose its
high 32 bits, modelling `SmallRng`'s `gen::<u32>()`. -/
def Rng.next32 (r : Rng) : Nat × Rng :=
  let s := (6364136223846793005 * r.state + 1442695040888963407) % (2 ^ 64)
  ((s / 2 ^ 32) % 2 ^ 32, ⟨s⟩)

/-- Embeds `Rng::new(seed)` from `src/rng.rs`: seed the generator. -/
def Rng.new (seed : Nat) : Rng := ⟨seed % 2 ^ 64⟩

/-- The crate's default seed, `DEFAULT_SEED = 0x12345678_12345678`
(`src/rng.rs`). -/
def Rng.defaultRng : Rng := Rng.new 0x1234567812345678

/-- Embeds `Rng::gen_index(len)` from `src/rng.rs`: `None` iff `len == 0`,
otherwise Lemire reduction of a fresh `u32` draw:
`(u64(gen_u32()) * len) >> 32`. -/
def Rng.genIndex (r : Rng) (len : Nat) : Option (Nat × Rng) :=
  if len = 0 then none
  else
    let (x, r') := r.next32
    some ((x * len) / 2 ^ 32, r')

/-- Model of the external `SmallRng::gen::<u8>()`: a full-width draw
reduced to 8 bits. -/
def Rng.genU8 (r : Rng) : Nat × Rng :=
  let (x, r') := r.next32
  (x % 256, r')

/-- Model of the external `rand` `gen_range(lo..=hi)` on unsigned
values: a uniform draw from the inclusive range; `rand` aborts
("cannot sample empty range") when `hi < lo`, modelled as `none`. -/
def Rng.genRangeIncl (r : Rng) (lo hi : Nat) : Option (Nat × Rng) :=
  if hi < lo then none
  else
    let (x, r') := r.next32
    some (lo + x % (hi - lo + 1), r')

/-- Model of the external `rand` `gen_range(lo..hi)` on unsigned values:
a uniform draw from the half-open range; `rand` aborts when the range is
empty (`hi ≤ lo`), modelled as `none`. -/
def Rng.genRangeExcl (r : Rng) (lo hi : Nat) : Option (Nat × Rng) :=
  if hi ≤ lo then none
  else
    let (x, r') := r.next32
    some (lo + x % (hi - lo), r')

theorem Rng.next32_lt (r : Rng) : (r.next32).1 < 2 ^ 32 := by
  unfold Rng.next32
  exact Nat.mod_lt _ (by norm_num)

theorem Rng.genIndex_lt {r : Rng} {len i : Nat} {r' : Rng}
    (h : r.genIndex len = some (i, r')) : i < len := by
  unfold Rng.genIndex at h
  split at h
  · exact absurd h (by simp)
  · next hlen =>
    simp only [Option.some.injEq, Prod.mk.injEq] at h
    have hx : (r.next32).1 < 2 ^ 32 := Rng.next32_lt r
    have h1 : (r.next32).1 * len < 2 ^ 32 * len :=
      Nat.mul_lt_mul_of_lt_of_le hx (Nat.le_refl len) (Nat.pos_of_ne_zero hlen)
    have h2 : (r.next32).1 * len / 2 ^ 32 < len :=
      Nat.div_lt_of_lt_mul (Nat.mul_comm (2 ^ 32) len ▸ h1)
    omega

theorem Rng.genIndex_pos_isSome (r : Rng) {len : Nat} (h : 0 < len) :
    ∃ i r', r.genIndex len = some (i, r') := by
  unfold Rng.genIndex
  simp [Nat.pos_iff_ne_zero.mp h]

theorem Rng.genRangeIncl_bounds {r : Rng} {lo hi x : Nat} {r' : Rng}
    (h : r.genRangeIncl lo hi = some (x, r')) : lo ≤ x ∧ x ≤ hi := by
  unfold Rng.genRangeIncl at h
  split at h
  · exact absurd h (by simp)
  · next hle =>
    simp only [Option.some.injEq, Prod.mk.injEq] at h
    have hmod : (r.next32).1 % (hi - lo + 1) < hi - lo + 1 :=
      Nat.mod_lt _ (Nat.succ_pos _)
    omega

theorem Rng.genRangeExcl_lt {r : Rng} {lo hi x : Nat} {r' : Rng}
    (h : r.genRangeExcl lo hi = some (x, r')) : lo ≤ x ∧ x < hi := by
  unfold Rng.genRangeExcl at h
  split at h
  · exact absurd h (by simp)
  · next hle =>
    simp only [Option.some.injEq, Prod.mk.injEq] at h
    have hmod : (r.next32).1 % (hi - lo) < hi - lo := Nat.mod_lt _ (by omega)
    omega

/-- The session context from `src/lib.rs` (`MutationContext`): the
random-number generator plus the shrink flag. -/
structure Ctx where
  rng : Rng
  shrink : Bool
deriving DecidableEq, Repr

/-- The public error kinds from `src/error.rs` (`ErrorKind`):
`Exhausted`, `InvalidRange`, `Other(message)`. -/
inductive ErrKind where
  | exhausted
  | invalidRange
  | other (msg : String)
deriving DecidableEq, Repr

/-- The full error type from `src/error.rs` (`ErrorInner`): a public
kind, or the internal-only `EarlyExit` sentinel.  `Error::early_exit`
is `pub(crate)`, so mutator implementations can only produce `kind`
errors. -/
inductive Err where
  | kind (k : ErrKind)
  | earlyExit
deriving DecidableEq, Repr

/-- Embeds `Error::is_early_exit` from `src/error.rs`. -/
def Err.isEarlyExit : Err → Bool
  | .earlyExit => true
  | .kind _ => false

/-- Embeds `Error::kind` from `src/error.rs`: total on public errors; the
`EarlyExit` branch is `unreachable!()` in the source, modelled as
`none`. -/
def Err.kindOf : Err → Option ErrKind
  | .kind k => some k
  | .earlyExit => none

/-- A registration closure, as passed to `MutationSet::mutation`
(`src/lib.rs`).  It may mutate the context (through
`&mut MutationContext`) and the value / mutator state (through its
captures, folded into `S` here), may fail with a public error kind, and
may abort the process (`none`), for example when the external
`gen_range` is invoked on an empty range. -/
def ClosureM (S : Type) := Ctx → S → Option (Ctx × S × Except ErrKind Unit)

/-- A mutation program: the trace of a `Mutate::mutate` implementation.
Implementations are straight-line sequences of
`muts.mutation(closure)?` calls (`reg`), ending in `Ok(())` (`done`) or
an early `Err(kind)` return (`fail`); any branching on the value and
the shrink flag happens before the program is produced, mirroring how
the Rust method branches on `value` and `muts.shrink()`. -/
inductive MProg (S : Type) where
  | done : MProg S
  | fail (k : ErrKind) : MProg S
  | reg (f : ClosureM S) (rest : MProg S) : MProg S

/-- A mutator for values of type `S`: given the shrink flag and the
current value, the registration program its `mutate` method executes. -/
def Mutator (S : Type) := Bool → S → MProg S

/-- The registry phase from `src/lib.rs` (`enum Phase`). -/
inductive Phase where
  | count (n : Nat)
  | apply (current target : Nat)
deriving DecidableEq, Repr

/-- The candidate registry from `src/lib.rs` (`MutationSet`): the
borrowed session context, the phase, and the `applied_mutation` flag. -/
structure MSet where
  ctx : Ctx
  phase : Phase
  applied : Bool
deriving DecidableEq, Repr

/-- Embeds `MutationSet::mutation` from `src/lib.rs`.  In the counting phase
the counter is incremented and the closure is not invoked.  In the
applying phase, when `current == target` the `applied` flag is set, the
closure is invoked (its context/value mutations persist even if it
fails), and on closure success the internal `EarlyExit` error is
signalled; otherwise `current` is incremented and the closure is not
invoked. -/
def MSet.mutation {S : Type} (ms : MSet) (f : ClosureM S) (s : S) :
    Option (MSet × S × Except Err Unit) :=
  match ms.phase with
  | .count n => some ({ ms with phase := .count (n + 1) }, s, .ok ())
  | .apply current target =>
    if current = target then
      match f ms.ctx s with
      | none => none
      | some (ctx', s', .ok ()) =>
        some ({ ms with ctx := ctx', applied := true }, s', .error .earlyExit)
      | some (ctx', s', .error e) =>
        some ({ ms with ctx := ctx', applied := true }, s', .error (.kind e))
    else
      some ({ ms with phase := .apply (current + 1) target }, s, .ok ())

/-- Run a mutation program against the registry: each `reg` node is a
`muts.mutation(f)?` call whose error (if any) is propagated
immediately, exactly as the `?` operator does in the source. -/
def runProg {S : Type} : MProg S → MSet → S → Option (MSet × S × Except Err Unit)
  | .done, ms, s => some (ms, s, .ok ())
  | .fail k, ms, s => some (ms, s, .error (.kind k))
  | .reg f p, ms, s =>
    match ms.mutation f s with
    | none => none
    | some (ms', s', .ok ()) => runProg p ms' s'
    | some (ms', s', .error e) => some (ms', s', .error e)

instance {ε α : Type} [DecidableEq ε] [DecidableEq α] :
    DecidableEq (Except ε α) := fun x y =>
  match x, y with
  | .ok a, .ok b =>
    if h : a = b then .isTrue (by rw [h]) else .isFalse (by simp [h])
  | .error a, .error b =>
    if h : a = b then .isTrue (by rw [h]) else .isFalse (by simp [h])
  | .ok _, .error _ => .isFalse (by simp)
  | .error _, .ok _ => .isFalse (by simp)

/-- The outcome of one engine-level mutation call: the final context,
value and result, or a process abort (`panic!`/`unreachable!`/failed
`unwrap` in the source). -/
inductive EngineOut (S : Type) where
  | res (ctx : Ctx) (s : S) (r : Except Err Unit)
  | fatal (tag : String)
deriving DecidableEq

/-- Embeds `MutationContext::choose_and_apply_mutation` from `src/lib.rs`
(which `mutate_with` forwards to): run the counting pass; zero
candidates yields `Exhausted`; otherwise draw a uniform target index
and run the applying pass, interpreting a propagated `EarlyExit` as
success.  An applying pass that returns `Ok` is a contract violation
(`panic!`): either the early-exit error was swallowed (`applied` set)
or the enumeration was nondeterministic. -/
def chooseAndApplyMutation {S : Type} (mutator : Mutator S) (ctx : Ctx) (s : S) :
    EngineOut S :=
  let ms0 : MSet := { ctx := ctx, phase := .count 0, applied := false }
  match runProg (mutator ctx.shrink s) ms0 s with
  | none => .fatal "abort in counting pass"
  | some (ms1, s1, .error e) => .res ms1.ctx s1 (.error e)
  | some (ms1, s1, .ok ()) =>
    match ms1.phase with
    | .apply _ _ => .fatal "unreachable: phase"
    | .count count =>
      if count = 0 then .res ms1.ctx s1 (.error (.kind .exhausted))
      else
        match ms1.ctx.rng.genIndex count with
        | none => .fatal "unwrap: gen_index"
        | some (target, rng') =>
          let ctx2 : Ctx := { ms1.ctx with rng := rng' }
          let ms2 : MSet := { ctx := ctx2, phase := .apply 0 target, applied := ms1.applied }
          match runProg (mutator ctx2.shrink s1) ms2 s1 with
          | none => .fatal "abort in applying pass"
          | some (ms3, s3, .error .earlyExit) => .res ms3.ctx s3 (.ok ())
          | some (ms3, s3, .error e) => .res ms3.ctx s3 (.error e)
          | some (ms3, _, .ok ()) =>
            if ms3.applied then .fatal "early-exit error not propagated"
            else .fatal "nondeterministic mutator"

/-- Build the straight-line program that registers each closure of the
list in order and then returns `Ok(())`. -/
def MProg.ofList {S : Type} : List (ClosureM S) → MProg S
  | [] => .done
  | f :: fs => .reg f (MProg.ofList fs)

/-- The registration stream of a program: the closures it registers, in
order, or `none` if the method returns an error before completing. -/
def MProg.regsOf {S : Type} : MProg S → Option (List (ClosureM S))
  | .done => some []
  | .fail _ => none
  | .reg f p => (MProg.regsOf p).map (f :: ·)

/-! ## Leaf mutators, embedded from `src/mutators.rs` and
`src/mutators/core_impls.rs` -/

/-- Embeds `impl Mutate<bool> for Bool` (`src/mutators.rs`, identical in
`core_impls.rs`): register the flip candidate unless shrinking a value
that is already `false`. -/
def boolMutator : Mutator Bool := fun shrink v =>
  if !shrink || v then
    .reg (fun ctx s => some (ctx, !s, .ok ())) .done
  else
    .done

/-- The shrink-mode closure of the `ints!` `u8` mutator in
`src/mutators.rs`: `*value = ctx.rng().inner().gen_range(0..=*value)` —
note the upper bound is the current value, *inclusive*. -/
def u8ShrinkClosure : ClosureM Nat := fun ctx s =>
  match ctx.rng.genRangeIncl 0 s with
  | none => none
  | some (x, r') => some ({ ctx with rng := r' }, x, .ok ())

/-- The non-shrink closure of the `ints!` `u8` mutator:
`*value = ctx.rng().gen_u8()`. -/
def u8FullClosure : ClosureM Nat := fun ctx s =>
  let (x, r') := ctx.rng.genU8
  let _ := s
  some ({ ctx with rng := r' }, x, .ok ())

/-- Embeds `impl Mutate<u8> for U8` from the `ints!` macro in
`src/mutators.rs`: when shrinking a nonzero value, one candidate
redrawing uniformly from `0..=*value` (inclusive); when not shrinking,
one full-width redraw candidate. -/
def u8Mutator : Mutator Nat := fun shrink v =>
  if shrink then
    if v ≠ 0 then .reg u8ShrinkClosure .done
    else .done
  else
    .reg u8FullClosure .done

/-- The single closure of the `ints!` `u8` mutator in
`src/mutators/core_impls.rs`: in shrink mode
`gen_range(0..*value)` (current value *exclusive*), otherwise a
full-width redraw. -/
def u8CIClosure : ClosureM Nat := fun ctx s =>
  if ctx.shrink then
    match ctx.rng.genRangeExcl 0 s with
    | none => none
    | some (x, r') => some ({ ctx with rng := r' }, x, .ok ())
  else
    let (x, r') := ctx.rng.genU8
    some ({ ctx with rng := r' }, x, .ok ())

/-- Embeds `impl Mutate<u8> for U8` from the `ints!` macro in
`src/mutators/core_impls.rs`: shrinking a zero value registers nothing;
otherwise one candidate that redraws from `0..*value` (exclusive) in
shrink mode, and across the full width otherwise. -/
def u8MutatorCI : Mutator Nat := fun shrink v =>
  if shrink ∧ v = 0 then .done
  else .reg u8CIClosure .done

/-- Embeds `impl Mutate<()> for Unit` (`src/mutators.rs`): registers nothing
and returns `Ok(())`. -/
def unitMutator : Mutator Unit := fun _ _ => .done

/-- Embeds `MutateInRange::mutate_in_range` for `u8` from the `ints!` macro in
`src/mutators.rs`: an inverted range is rejected with `InvalidRange`
before any registration; shrinking a value already at `start` registers
nothing; otherwise one candidate that redraws from `start..=end`, with
the effective upper bound clamped to the current value in shrink
mode. -/
def inRangeClosure (start endv : Nat) : ClosureM Nat := fun ctx s =>
  let e := if ctx.shrink then min s endv else endv
  match ctx.rng.genRangeIncl start e with
  | none => none
  | some (x, r') => some ({ ctx with rng := r' }, x, .ok ())

/-- The body of `mutate_in_range`: reject an inverted range with
`InvalidRange` before registering anything; shrinking a value already
at `start` registers nothing; otherwise register `inRangeClosure`. -/
def mutateInRangeProg (start endv : Nat) : Mutator Nat := fun shrink v =>
  if endv < start then .fail .invalidRange
  else if v = start ∧ shrink then .done
  else .reg (inRangeClosure start endv) .done

/-- Embeds `impl Mutate<T> for Range<M, T>` (`src/mutators.rs`): `m::range`
simply forwards to the inner mutator's `mutate_in_range`. -/
def rangeMutator (start endv : Nat) : Mutator Nat :=
  mutateInRangeProg start endv

/-- A `Generate::generate` implementation: produce a fresh value from
the context, or fail with a public error kind. -/
def GenM (α : Type) := Ctx → Ctx × Except ErrKind α

/-- Lift a closure over the payload of a `Some` to a closure over the
option, mirroring how the inner mutator's closures capture
`&mut`-borrows of the `Some` payload (`value.as_mut()`); invoked on a
`None` it would dereference a dangling borrow, which cannot happen in
an engine-driven run. -/
def liftSomeClosure {α : Type} (f : ClosureM α) : ClosureM (Option α) := fun ctx s =>
  match s with
  | none => none
  | some v =>
    match f ctx v with
    | none => none
    | some (ctx', v', r) => some (ctx', some v', r)

/-- Splice an inner program over the `Some` payload in front of a
continuation program, mirroring `self.mutator.mutate(muts, v)?;`
followed by further registrations. -/
def MProg.liftSome {α : Type} : MProg α → MProg (Option α) → MProg (Option α)
  | .done, rest => rest
  | .fail k, _ => .fail k
  | .reg f p, rest => .reg (liftSomeClosure f) (MProg.liftSome p rest)

/-- The present-to-absent transition closure
`|_| Ok(*value = None)`. -/
def setNoneClosure {α : Type} : ClosureM (Option α) := fun ctx _ =>
  some (ctx, none, .ok ())

/-- The absent-to-present transition closure
`|ctx| Ok(*value = Some(self.mutator.generate(ctx)?))`. -/
def genSomeClosure {α : Type} (gen : GenM α) : ClosureM (Option α) := fun ctx s =>
  match gen ctx with
  | (ctx', .ok v) => some (ctx', some v, .ok ())
  | (ctx', .error k) => some (ctx', s, .error k)

/-- Embeds `impl Mutate<Option<T>> for Option<M>` (`src/mutators.rs`,
identical logic in `core_impls/option.rs`): shrinking a `None`
registers nothing; mutating a `None` registers only the
absent-to-present transition; mutating a `Some` registers the inner
mutator's candidates followed by the present-to-absent transition. -/
def optionMutator {α : Type} (inner : Mutator α) (gen : GenM α) :
    Mutator (Option α) := fun shrink v =>
  if shrink && v.isNone then .done
  else
    match v with
    | none => .reg (genSomeClosure gen) .done
    | some x => (inner shrink x).liftSome (.reg setNoneClosure .done)

/-- Lift a closure over the `Ok` payload of a result (modelled as
`Sum τ ε` with `inl` = `Ok`, `inr` = `Err`). -/
def liftOkClosure {τ ε : Type} (f : ClosureM τ) : ClosureM (Sum τ ε) := fun ctx s =>
  match s with
  | .inl x =>
    match f ctx x with
    | none => none
    | some (ctx', x', r) => some (ctx', .inl x', r)
  | .inr _ => none

/-- Lift a closure over the `Err` payload of a result. -/
def liftErrClosure {τ ε : Type} (f : ClosureM ε) : ClosureM (Sum τ ε) := fun ctx s =>
  match s with
  | .inr e =>
    match f ctx e with
    | none => none
    | some (ctx', e', r) => some (ctx', .inr e', r)
  | .inl _ => none

/-- Splice an inner program over the `Ok` payload in front of a
continuation program. -/
def MProg.liftOk {τ ε : Type} : MProg τ → MProg (Sum τ ε) → MProg (Sum τ ε)
  | .done, rest => rest
  | .fail k, _ => .fail k
  | .reg f p, rest => .reg (liftOkClosure f) (MProg.liftOk p rest)

/-- Splice an inner program over the `Err` payload in front of a
continuation program. -/
def MProg.liftErr {τ ε : Type} : MProg ε → MProg (Sum τ ε) → MProg (Sum τ ε)
  | .done, rest => rest
  | .fail k, _ => .fail k
  | .reg f p, rest => .reg (liftErrClosure f) (MProg.liftErr p rest)

/-- The `Ok`-to-`Err` transition closure
`|ctx| Ok(*value = Err(self.err_mutator.generate(ctx)?))`. -/
def toErrClosure {τ ε : Type} (genE : GenM ε) : ClosureM (Sum τ ε) := fun ctx s =>
  match genE ctx with
  | (ctx', .ok e) => some (ctx', .inr e, .ok ())
  | (ctx', .error k) => some (ctx', s, .error k)

/-- The `Err`-to-`Ok` transition closure
`|ctx| Ok(*value = Ok(self.ok_mutator.generate(ctx)?))`. -/
def toOkClosure {τ ε : Type} (genT : GenM τ) : ClosureM (Sum τ ε) := fun ctx s =>
  match genT ctx with
  | (ctx', .ok x) => some (ctx', .inl x, .ok ())
  | (ctx', .error k) => some (ctx', s, .error k)

/-- Embeds `impl Mutate<Result<T, E>> for Result<M, N>` (`src/mutators.rs`,
identical logic in `core_impls/result.rs`): on `Ok` the inner
candidates, then the `Ok`-to-`Err` transition only when not shrinking;
on `Err` the inner candidates, then the `Err`-to-`Ok` transition
unconditionally. -/
def resultMutator {τ ε : Type} (mi : Mutator τ) (me : Mutator ε)
    (genT : GenM τ) (genE : GenM ε) : Mutator (Sum τ ε) := fun shrink v =>
  match v with
  | .inl x =>
    (mi shrink x).liftOk
      (if shrink then .done else .reg (toErrClosure genE) .done)
  | .inr e =>
    (me shrink e).liftErr (.reg (toOkClosure genT) .done)

/-! ## The property-check harness, embedded from `src/check.rs`

`src/check.rs` is written against the crate's earlier `Mutator` trait,
whose `mutate(&mut context, &mut value)` the harness treats as a black
box; it is embedded here as an opaque-to-the-harness state-transforming
function.  Partial mutations of the context and value persist even when
the call returns an error, as they do through `&mut` references. -/

/-- A mutator under the earlier `Mutator` trait API used by
`src/check.rs`. -/
def MutFn (T : Type) := Ctx → T → Ctx × T × Except ErrKind Unit

/-- The user-visible outcome of a check run, from `src/check.rs`
(`CheckResult` / `CheckError`), plus a `fatal` outcome for process
aborts (panics) inside the harness itself. -/
inductive CheckRes (T : Type) where
  | passed
  | failed (value : T) (message : String)
  | emptyCorpus
  | mutatorError (k : ErrKind)
  | fatal (tag : String)
deriving DecidableEq

/-- Embeds `Vec::swap_remove(i)`: overwrite slot `i` with the last element and
pop the last element. -/
def swapRemove {T : Type} (l : List T) (i : Nat) : List T :=
  match l.getLast? with
  | none => l
  | some x => (l.set i x).dropLast

/-- The iteration body of `Check::shrink` (`src/check.rs` lines
396-425): clone the best-known failing value, mutate the clone in
shrink mode; exhaustion breaks out of the loop, any other mutator error
is skipped, and the clone replaces the best-known value (and message)
only when the property still fails on it. -/
def shrinkLoop {T : Type} (mf : MutFn T) (prop : T → Option String) :
    Nat → Ctx → T → String → T × String
  | 0, _, value, message => (value, message)
  | fuel + 1, ctx, value, message =>
    let (ctx', cand, r) := mf ctx value
    match r with
    | .error .exhausted => (value, message)
    | .error _ => shrinkLoop mf prop fuel ctx' value message
    | .ok _ =>
      match prop cand with
      | none => shrinkLoop mf prop fuel ctx' value message
      | some msg => shrinkLoop mf prop fuel ctx' cand msg

/-- Embeds `Check::shrink` (`src/check.rs` lines 375-429): run the shrink loop
with a fresh shrink-enabled context and report the resulting failure
(`shrink_iters == 0` reports the incoming failure unchanged, which
coincides with running the loop on zero fuel). -/
def checkShrink {T : Type} (mf : MutFn T) (prop : T → Option String)
    (shrinkIters : Nat) (value : T) (message : String) : CheckRes T :=
  let ctx : Ctx := { rng := Rng.defaultRng, shrink := true }
  let (v, m) := shrinkLoop mf prop shrinkIters ctx value message
  .failed v m

/-- The `Mutating`-phase loop of `Check::run` (`src/check.rs` lines
337-357): draw a uniform corpus index, mutate that slot in place; on
success re-check the property on the mutated slot and shrink on
failure; on exhaustion `swap_remove` the slot, succeed if the corpus
became empty, and otherwise fall through to the same `corpus[index]`
property re-check; any other mutator error is returned.  The property
function is pure, so `check_one`'s `catch_unwind` wrapper is the
identity. -/
def checkRunLoop {T : Type} (mf : MutFn T) (prop : T → Option String)
    (shrinkIters : Nat) : Nat → Ctx → List T → CheckRes T
  | 0, _, _ => .passed
  | fuel + 1, ctx, corpus =>
    match ctx.rng.genIndex corpus.length with
    | none => .fatal "unwrap: gen_index"
    | some (i, rng') =>
      let ctx1 : Ctx := { ctx with rng := rng' }
      match corpus[i]? with
      | none => .fatal "index out of bounds"
      | some v =>
        let (ctx2, v', r) := mf ctx1 v
        match r with
        | .ok _ =>
          let corpus' := corpus.set i v'
          match corpus'[i]? with
          | none => .fatal "index out of bounds"
          | some w =>
            match prop w with
            | some msg => checkShrink mf prop shrinkIters w msg
            | none => checkRunLoop mf prop shrinkIters fuel ctx2 corpus'
        | .error .exhausted =>
          let corpus' := swapRemove (corpus.set i v') i
          if corpus'.isEmpty then .passed
          else
            match corpus'[i]? with
            | none => .fatal "index out of bounds"
            | some w =>
              match prop w with
              | some msg => checkShrink mf prop shrinkIters w msg
              | none => checkRunLoop mf prop shrinkIters fuel ctx2 corpus'
        | .error k => .mutatorError k

/-! ## Behaviour of the two passes -/

theorem regsOf_ofList {S : Type} (l : List (ClosureM S)) :
    (MProg.ofList l).regsOf = some l := by
  induction l with
  | nil => rfl
  | cons f fs ih => simp [MProg.ofList, MProg.regsOf, ih]

theorem regsOf_nil_eq_done {S : Type} {p : MProg S}
    (hp : p.regsOf = some []) : p = .done := by
  cases p with
  | done => rfl
  | fail k => simp [MProg.regsOf] at hp
  | reg f rest => simp [MProg.regsOf, Option.map_eq_some'] at hp

/-- The counting pass: each registration increments the counter by one,
no closure is invoked, and the context, value and `applied` flag are
untouched. -/
theorem runProg_counting {S : Type} (p : MProg S) (l : List (ClosureM S))
    (hp : p.regsOf = some l) (ctx : Ctx) (k : Nat) (a : Bool) (s : S) :
    runProg p ⟨ctx, .count k, a⟩ s =
      some (⟨ctx, .count (k + l.length), a⟩, s, .ok ()) := by
  induction p generalizing l k with
  | done =>
    simp [MProg.regsOf] at hp
    subst hp
    simp [runProg]
  | fail k' => simp [MProg.regsOf] at hp
  | reg f rest ih =>
    rw [MProg.regsOf, Option.map_eq_some'] at hp
    obtain ⟨l', hl', rfl⟩ := hp
    simp only [runProg, MSet.mutation]
    rw [ih l' hl' (k + 1)]
    have harith : k + 1 + l'.length = k + (l'.length + 1) := by omega
    rw [harith]
    simp [List.length_cons]

/-- A counting pass over a program that returns early with an error:
the error is a public kind (never `EarlyExit`), and the context, value
and `applied` flag are untouched. -/
theorem runProg_counting_fail {S : Type} (p : MProg S) (hp : p.regsOf = none)
    (ctx : Ctx) (k : Nat) (a : Bool) (s : S) :
    ∃ j kk, runProg p ⟨ctx, .count k, a⟩ s =
      some (⟨ctx, .count j, a⟩, s, .error (.kind kk)) := by
  induction p generalizing k with
  | done => simp [MProg.regsOf] at hp
  | fail kf => exact ⟨k, kf, by simp [runProg]⟩
  | reg f rest ih =>
    rw [MProg.regsOf, Option.map_eq_none'] at hp
    obtain ⟨j, kk, hj⟩ := ih hp (k + 1)
    refine ⟨j, kk, ?_⟩
    simp only [runProg, MSet.mutation]
    exact hj

/-- The applying pass over a registration list, targeting the `i`-th
registration: the first `i` calls only increment `current`, the `i`-th
invokes its closure exactly once, sets `applied`, and signals
`EarlyExit` on closure success (or propagates the closure's own error);
no later closure is reached. -/
theorem runProg_applying {S : Type} (l : List (ClosureM S)) (i : Nat)
    (h : i < l.length) (ctx : Ctx) (cur : Nat) (a : Bool) (s : S) :
    runProg (MProg.ofList l) ⟨ctx, .apply cur (cur + i), a⟩ s =
      match l.get ⟨i, h⟩ ctx s with
      | none => none
      | some (ctx', s', .ok ()) =>
        some (⟨ctx', .apply (cur + i) (cur + i), true⟩, s', .error .earlyExit)
      | some (ctx', s', .error e) =>
        some (⟨ctx', .apply (cur + i) (cur + i), true⟩, s', .error (.kind e)) := by
  induction l generalizing i cur with
  | nil => exact absurd h (by simp)
  | cons f fs ih =>
    cases i with
    | zero =>
      simp only [MProg.ofList, runProg, MSet.mutation, Nat.add_zero, if_pos rfl,
        List.get]
      rcases hf : f ctx s with _ | ⟨ctx', s', r⟩
      · rfl
      · rcases r with _ | e <;> rfl
    | succ i' =>
      have hne : cur ≠ cur + (i' + 1) := by omega
      simp only [MProg.ofList, runProg, MSet.mutation, if_neg hne, List.get]
      have harith : cur + (i' + 1) = (cur + 1) + i' := by omega
      rw [harith]
      exact ih i' (by simpa using h) (cur + 1)

/-- Specialisation of `runProg_applying` to a pass starting at
`current = 0`. -/
theorem runProg_applying0 {S : Type} (l : List (ClosureM S)) (i : Nat)
    (h : i < l.length) (ctx : Ctx) (a : Bool) (s : S) :
    runProg (MProg.ofList l) ⟨ctx, .apply 0 i, a⟩ s =
      match l.get ⟨i, h⟩ ctx s with
      | none => none
      | some (ctx', s', .ok ()) =>
        some (⟨ctx', .apply i i, true⟩, s', .error .earlyExit)
      | some (ctx', s', .error e) =>
        some (⟨ctx', .apply i i, true⟩, s', .error (.kind e)) := by
  have := runProg_applying l i h ctx 0 a s
  rwa [Nat.zero_add] at this

/-! ## Engine-level characterisations -/

/-- A `mutate` implementation that registers nothing and returns `Ok`
makes the engine report `Exhausted` with the context and value
untouched. -/
theorem engine_done {S : Type} (m : Mutator S) (ctx : Ctx) (s : S)
    (hp : m ctx.shrink s = .done) :
    chooseAndApplyMutation m ctx s = .res ctx s (.error (.kind .exhausted)) := by
  unfold chooseAndApplyMutation
  rw [hp]
  rfl

/-- A `mutate` implementation that returns an error kind before
registering makes the engine propagate exactly that error with the
context and value untouched. -/
theorem engine_fail {S : Type} (m : Mutator S) (ctx : Ctx) (s : S) (k : ErrKind)
    (hp : m ctx.shrink s = .fail k) :
    chooseAndApplyMutation m ctx s = .res ctx s (.error (.kind k)) := by
  unfold chooseAndApplyMutation
  rw [hp]
  rfl

/-- The full protocol on a mutator whose `mutate` registers the list
`l` of candidates: the engine counts `l.length` candidates, draws the
target by `gen_index`, and the final outcome is exactly one invocation
of the target closure on the post-draw context and the original
value. -/
theorem engine_ofList {S : Type} (m : Mutator S) (ctx : Ctx) (s : S)
    (l : List (ClosureM S)) (hp : m ctx.shrink s = .ofList l)
    (t : Nat) (rng' : Rng) (ht : ctx.rng.genIndex l.length = some (t, rng'))
    (htl : t < l.length) :
    chooseAndApplyMutation m ctx s =
      match l.get ⟨t, htl⟩ ⟨rng', ctx.shrink⟩ s with
      | none => .fatal "abort in applying pass"
      | some (ctx', s', .ok ()) => .res ctx' s' (.ok ())
      | some (ctx', s', .error e) => .res ctx' s' (.error (.kind e)) := by
  have hlen : l.length ≠ 0 := by
    intro h0
    rw [h0] at ht
    simp [Rng.genIndex] at ht
  unfold chooseAndApplyMutation
  rw [hp]
  simp only [runProg_counting _ l (regsOf_ofList l) ctx 0 false s, Nat.zero_add]
  rw [if_neg hlen]
  simp only [ht, hp, runProg_applying0 l t htl { rng := rng', shrink := ctx.shrink } false s]
  rcases hf : l.get ⟨t, htl⟩ { rng := rng', shrink := ctx.shrink } s with
    _ | ⟨ctx', s', r⟩
  · rfl
  · rcases r with _ | e <;> rfl

/-- A program whose registration stream is `some l` is exactly the
straight-line registration of `l`. -/
theorem eq_ofList_of_regsOf {S : Type} {p : MProg S} {l : List (ClosureM S)}
    (hp : p.regsOf = some l) : p = MProg.ofList l := by
  induction p generalizing l with
  | done =>
    simp [MProg.regsOf] at hp
    subst hp
    rfl
  | fail k => simp [MProg.regsOf] at hp
  | reg f rest ih =>
    rw [MProg.regsOf, Option.map_eq_some'] at hp
    obtain ⟨l', hl', rfl⟩ := hp
    rw [ih hl']
    rfl

/-- Drawing an index over a single candidate always selects index 0 and
advances the generator by one step. -/
theorem Rng.genIndex_one (r : Rng) : r.genIndex 1 = some (0, (r.next32).2) := by
  unfold Rng.genIndex
  have hx : (r.next32).1 < 2 ^ 32 := Rng.next32_lt r
  simp only [one_ne_zero, if_neg, Nat.mul_one, ite_false]
  rw [Nat.div_eq_of_lt hx]

/-- Engine behaviour on a mutator that registers exactly one candidate:
the counting pass counts 1, `gen_index(1)` selects index 0 (advancing
the generator one step), and the outcome is one invocation of the
closure. -/
theorem engine_single {S : Type} (m : Mutator S) (ctx : Ctx) (s : S)
    (f : ClosureM S) (hp : m ctx.shrink s = .reg f .done) :
    chooseAndApplyMutation m ctx s =
      match f ⟨(ctx.rng.next32).2, ctx.shrink⟩ s with
      | none => .fatal "abort in applying pass"
      | some (ctx', s', .ok ()) => .res ctx' s' (.ok ())
      | some (ctx', s', .error e) => .res ctx' s' (.error (.kind e)) := by
  have hp' : m ctx.shrink s = MProg.ofList [f] := hp
  rw [engine_ofList m ctx s [f] hp' 0 (ctx.rng.next32).2
    (Rng.genIndex_one ctx.rng) (by simp)]
  rfl

/-! ## Claims -/

/-- C1. For every mutator whose `mutate` deterministically registers
`n > 0` candidate mutations (here: the straight-line registration of a
list `cands` of always-succeeding closures), a single
`MutationContext::mutate_with` call runs the counting pass (each
`MutationSet::mutation` call increments the counter by exactly one and
invokes no closure, leaving context and value untouched), draws a
uniform target index in `[0, n)`, and during the applying pass invokes
exactly the closure at the target registration position, after which the
call returns `Ok(())` with the state produced by that single closure
invocation. -/
theorem c1_two_phase_selection {S : Type} (cands : List (ClosureM S))
    (ctx : Ctx) (s : S) (hn : 0 < cands.length)
    (hok : ∀ f ∈ cands, ∀ c : Ctx, ∀ v : S,
      ∃ c' v', f c v = some (c', v', .ok ())) :
    runProg (MProg.ofList cands) ⟨ctx, .count 0, false⟩ s =
        some (⟨ctx, .count cands.length, false⟩, s, .ok ())
    ∧ ∃ (t : Nat) (rng' : Rng) (ht : t < cands.length) (ctx' : Ctx) (s' : S),
        ctx.rng.genIndex cands.length = some (t, rng')
        ∧ cands.get ⟨t, ht⟩ ⟨rng', ctx.shrink⟩ s = some (ctx', s', .ok ())
        ∧ chooseAndApplyMutation (fun _ _ => MProg.ofList cands) ctx s =
            EngineOut.res ctx' s' (.ok ()) := by
  constructor
  · have := runProg_counting (MProg.ofList cands) cands (regsOf_ofList cands)
      ctx 0 false s
    rwa [Nat.zero_add] at this
  · obtain ⟨t, rng', ht⟩ := Rng.genIndex_pos_isSome ctx.rng hn
    have htl : t < cands.length := Rng.genIndex_lt ht
    obtain ⟨ctx', s', hf⟩ :=
      hok (cands.get ⟨t, htl⟩) (cands.get_mem _ _) ⟨rng', ctx.shrink⟩ s
    refine ⟨t, rng', htl, ctx', s', ht, hf, ?_⟩
    rw [engine_ofList (fun _ _ => MProg.ofList cands) ctx s cands rfl t rng' ht htl]
    rw [hf]

/-- Witness: `c1_two_phase_selection` instantiated at a concrete single-candidate
mutator that overwrites the value with 42, from the default-seed
context. -/
theorem c1_two_phase_selection_witness :
    (0 < ([fun (c : Ctx) (_ : Nat) => some (c, 42, Except.ok ())] :
        List (ClosureM Nat)).length)
    ∧ (runProg
        (MProg.ofList [fun (c : Ctx) (_ : Nat) => some (c, 42, Except.ok ())])
        ⟨⟨Rng.defaultRng, false⟩, .count 0, false⟩ 7 =
        some (⟨⟨Rng.defaultRng, false⟩, .count 1, false⟩, 7, .ok ())
      ∧ ∃ (t : Nat) (rng' : Rng) (ht : t < 1) (ctx' : Ctx) (s' : Nat),
          (Rng.defaultRng).genIndex 1 = some (t, rng')
          ∧ ([fun (c : Ctx) (_ : Nat) => some (c, 42, Except.ok ())] :
              List (ClosureM Nat)).get ⟨t, ht⟩ ⟨rng', false⟩ 7 =
              some (ctx', s', .ok ())
          ∧ chooseAndApplyMutation
              (fun _ _ => MProg.ofList
                [fun (c : Ctx) (_ : Nat) => some (c, 42, Except.ok ())])
              ⟨Rng.defaultRng, false⟩ 7 = EngineOut.res ctx' s' (.ok ())) :=
  ⟨by decide,
   c1_two_phase_selection
     [fun (c : Ctx) (_ : Nat) => some (c, 42, Except.ok ())]
     ⟨Rng.defaultRng, false⟩ 7 (by decide)
     (by
       intro f hf c v
       simp at hf
       subst hf
       exact ⟨c, 42, rfl⟩)⟩

/-- C2. The internal `EarlyExit` sentinel never crosses the public
boundary: every error returned by the engine satisfies
`is_early_exit() == false`, and `Error::kind()` on it never reaches the
`unreachable!()` branch. -/
theorem c2_early_exit_never_escapes {S : Type} (m : Mutator S) (ctx : Ctx)
    (s : S) (ctx' : Ctx) (s' : S) (e : Err)
    (h : chooseAndApplyMutation m ctx s = .res ctx' s' (.error e)) :
    e.isEarlyExit = false ∧ ∃ k, e.kindOf = some k := by
  suffices hk : ∃ k, e = Err.kind k by
    obtain ⟨k, rfl⟩ := hk
    exact ⟨rfl, k, rfl⟩
  rcases hregs : (m ctx.shrink s).regsOf with _ | l
  · obtain ⟨j, kk, hj⟩ := runProg_counting_fail _ hregs ctx 0 false s
    unfold chooseAndApplyMutation at h
    simp only [hj] at h
    simp only [EngineOut.res.injEq, Except.error.injEq] at h
    exact ⟨kk, h.2.2.symm⟩
  · have hpl : m ctx.shrink s = MProg.ofList l := eq_ofList_of_regsOf hregs
    rcases Nat.eq_zero_or_pos l.length with hlen | hlen
    · rw [List.length_eq_zero] at hlen
      subst hlen
      rw [engine_done m ctx s hpl] at h
      simp only [EngineOut.res.injEq, Except.error.injEq] at h
      exact ⟨.exhausted, h.2.2.symm⟩
    · obtain ⟨t, rng', ht⟩ := Rng.genIndex_pos_isSome ctx.rng hlen
      have htl : t < l.length := Rng.genIndex_lt ht
      rw [engine_ofList m ctx s l hpl t rng' ht htl] at h
      rcases hf : l.get ⟨t, htl⟩ ⟨rng', ctx.shrink⟩ s with _ | ⟨cf, sf, rf⟩
      · rw [hf] at h
        exact absurd h (by simp)
      · rw [hf] at h
        rcases rf with ef | u
        · have h' : EngineOut.res cf sf (.error (.kind ef)) =
              EngineOut.res ctx' s' (.error e) := h
          simp only [EngineOut.res.injEq, Except.error.injEq] at h'
          exact ⟨ef, h'.2.2.symm⟩
        · have h' : EngineOut.res cf sf (Except.ok ()) =
              EngineOut.res ctx' s' (.error e) := h
          exact absurd h' (by simp)

/-- Witness: `c2_early_exit_never_escapes` at a concrete erroring run: the unit
mutator registers nothing, so the engine returns the `Exhausted` kind,
which is not `EarlyExit`. -/
theorem c2_early_exit_never_escapes_witness :
    (Err.kind ErrKind.exhausted).isEarlyExit = false
    ∧ ∃ k, (Err.kind ErrKind.exhausted).kindOf = some k :=
  c2_early_exit_never_escapes unitMutator ⟨Rng.defaultRng, false⟩ () ⟨Rng.defaultRng, false⟩ ()
    (Err.kind ErrKind.exhausted) (by decide)

/-- C3. A counting pass that registers zero candidates (and returns
`Ok`) makes the engine report `Exhausted`, leaving the context, the
value and the mutator state untouched, without aborting; in particular
the unit mutator `m::unit()` always yields `Exhausted`. -/
theorem c3_zero_candidates_exhausted {S : Type} (m : Mutator S) (ctx : Ctx)
    (s : S) (h0 : (m ctx.shrink s).regsOf = some []) :
    chooseAndApplyMutation m ctx s = .res ctx s (.error (.kind .exhausted))
    ∧ ∀ ctx₂ : Ctx, chooseAndApplyMutation unitMutator ctx₂ () =
        .res ctx₂ () (.error (.kind .exhausted)) := by
  constructor
  · exact engine_done m ctx s (regsOf_nil_eq_done h0)
  · intro ctx₂
    exact engine_done unitMutator ctx₂ () rfl

/-- Witness: `c3_zero_candidates_exhausted` instantiated at the unit mutator
itself, whose counting pass registers zero candidates for any
context. -/
theorem c3_zero_candidates_exhausted_witness :
    chooseAndApplyMutation unitMutator ⟨Rng.defaultRng, false⟩ () =
      .res ⟨Rng.defaultRng, false⟩ () (.error (.kind .exhausted)) :=
  (c3_zero_candidates_exhausted unitMutator ⟨Rng.defaultRng, false⟩ () rfl).1

/-- Registration stream of a spliced `Some`-payload program: inner
registrations (lifted) followed by the continuation's registrations. -/
theorem regsOf_liftSome {α : Type} (p : MProg α) (rest : MProg (Option α)) :
    (p.liftSome rest).regsOf =
      p.regsOf.bind
        (fun l => rest.regsOf.map (fun r => l.map liftSomeClosure ++ r)) := by
  induction p with
  | done => simp [MProg.liftSome, MProg.regsOf]
  | fail k => simp [MProg.liftSome, MProg.regsOf]
  | reg f q ih =>
    simp only [MProg.liftSome, MProg.regsOf, ih]
    cases q.regsOf <;> cases rest.regsOf <;> simp

/-- Registration stream of a spliced `Ok`-payload program. -/
theorem regsOf_liftOk {τ ε : Type} (p : MProg τ) (rest : MProg (Sum τ ε)) :
    (p.liftOk rest).regsOf =
      p.regsOf.bind
        (fun l => rest.regsOf.map (fun r => l.map liftOkClosure ++ r)) := by
  induction p with
  | done => simp [MProg.liftOk, MProg.regsOf]
  | fail k => simp [MProg.liftOk, MProg.regsOf]
  | reg f q ih =>
    simp only [MProg.liftOk, MProg.regsOf, ih]
    cases q.regsOf <;> cases rest.regsOf <;> simp

/-- Registration stream of a spliced `Err`-payload program. -/
theorem regsOf_liftErr {τ ε : Type} (p : MProg ε) (rest : MProg (Sum τ ε)) :
    (p.liftErr rest).regsOf =
      p.regsOf.bind
        (fun l => rest.regsOf.map (fun r => l.map liftErrClosure ++ r)) := by
  induction p with
  | done => simp [MProg.liftErr, MProg.regsOf]
  | fail k => simp [MProg.liftErr, MProg.regsOf]
  | reg f q ih =>
    simp only [MProg.liftErr, MProg.regsOf, ih]
    cases q.regsOf <;> cases rest.regsOf <;> simp

/-- C8. Shrink-mode case transitions never increase value
complexity: in shrink mode the `Option` mutator registers zero
candidates for a `None` (so the engine reports `Exhausted` and the
value stays `None` — no absent-to-present transition) while a `Some`
still yields the inner candidates followed by the present-to-absent
transition as the final candidate; and in shrink mode the `Result`
mutator registers no `Ok`-to-`Err` transition after the inner
candidates of an `Ok`, while an `Err` still yields the inner candidates
followed by the `Err`-to-`Ok` transition. -/
theorem c8_shrink_case_transitions {α τ ε : Type} (inner : Mutator α)
    (gen : GenM α) (mi : Mutator τ) (me : Mutator ε) (genT : GenM τ)
    (genE : GenM ε) :
    (∀ rng : Rng,
      chooseAndApplyMutation (optionMutator inner gen) ⟨rng, true⟩ none =
        .res ⟨rng, true⟩ (none : Option α) (.error (.kind .exhausted)))
    ∧ (∀ x : α, (optionMutator inner gen true (some x)).regsOf =
        (inner true x).regsOf.map
          (fun l => l.map liftSomeClosure ++ [setNoneClosure]))
    ∧ (∀ x : τ, (resultMutator mi me genT genE true (Sum.inl x)).regsOf =
        (mi true x).regsOf.map (fun l => l.map liftOkClosure))
    ∧ (∀ e : ε, (resultMutator mi me genT genE true (Sum.inr e)).regsOf =
        (me true e).regsOf.map
          (fun l => l.map liftErrClosure ++ [toOkClosure genT])) := by
  refine ⟨?_, ?_, ?_, ?_⟩
  · intro rng
    exact engine_done _ _ _ (by simp [optionMutator])
  · intro x
    have hp : optionMutator inner gen true (some x) =
        (inner true x).liftSome (.reg setNoneClosure .done) := by
      simp [optionMutator]
    rw [hp, regsOf_liftSome]
    cases (inner true x).regsOf <;> simp [MProg.regsOf]
  · intro x
    have hp : resultMutator mi me genT genE true (Sum.inl x) =
        (mi true x).liftOk .done := by
      simp [resultMutator]
    rw [hp, regsOf_liftOk]
    cases (mi true x).regsOf <;> simp [MProg.regsOf]
  · intro e
    have hp : resultMutator mi me genT genE true (Sum.inr e) =
        (me true e).liftErr (.reg (toOkClosure genT) .done) := by
      simp [resultMutator]
    rw [hp, regsOf_liftErr]
    cases (me true e).regsOf <;> simp [MProg.regsOf]

/-- C9. Mutation is reproducible: two engine runs from identical
contexts (same generator state and same shrink flag) on the same
mutator and value produce identical outcomes — identical results,
final values, final mutator states, and final generator states.  The
embedding is a pure function of the context, so the Rust code's only
sources of variation (the generator state and the shrink flag) fully
determine the run. -/
theorem c9_reproducible {S : Type} (m : Mutator S) (ctx₁ ctx₂ : Ctx) (s : S)
    (h : ctx₁ = ctx₂) :
    chooseAndApplyMutation m ctx₁ s = chooseAndApplyMutation m ctx₂ s := by
  rw [h]

/-- Witness: `c9_reproducible` at a concrete run of the bool mutator. -/
theorem c9_reproducible_witness :
    chooseAndApplyMutation boolMutator ⟨Rng.new 99, false⟩ true =
      chooseAndApplyMutation boolMutator ⟨Rng.new 99, false⟩ true :=
  c9_reproducible boolMutator ⟨Rng.new 99, false⟩ ⟨Rng.new 99, false⟩ true rfl

/-- C10. The default bool mutator: whenever the engine returns `Ok`
the resulting value is the logical negation of the input, and in shrink
mode on `false` no candidate is registered, so the engine returns
`Exhausted` and the value remains `false`. -/
theorem c10_bool_negation (ctx : Ctx) (v : Bool) :
    (∀ ctx' v', chooseAndApplyMutation boolMutator ctx v = .res ctx' v' (.ok ())
      → v' = !v)
    ∧ (∀ rng : Rng, chooseAndApplyMutation boolMutator ⟨rng, true⟩ false =
        .res ⟨rng, true⟩ false (.error (.kind .exhausted))) := by
  constructor
  · intro ctx' v' h
    by_cases hc : (!ctx.shrink || v) = true
    · have hp : boolMutator ctx.shrink v =
          MProg.ofList [fun c s => some (c, !s, .ok ())] := by
        unfold boolMutator
        rw [if_pos hc]
        rfl
      rw [engine_ofList boolMutator ctx v _ hp 0 ((ctx.rng.next32).2)
        (Rng.genIndex_one ctx.rng) (by decide)] at h
      have h' : EngineOut.res ⟨(ctx.rng.next32).2, ctx.shrink⟩ (!v) (.ok ()) =
          EngineOut.res ctx' v' (.ok ()) := h
      simp only [EngineOut.res.injEq] at h'
      exact h'.2.1.symm
    · have hp : boolMutator ctx.shrink v = .done := by
        unfold boolMutator
        rw [if_neg hc]
      rw [engine_done boolMutator ctx v hp] at h
      exact absurd h (by simp)
  · intro rng
    exact engine_done boolMutator ⟨rng, true⟩ false rfl

/-- C4. Ranged mutation via `m::range` / `mutate_in_range` (the
`u8` instance of the `ints!` macro): in both shrink and non-shrink
mode, whenever the engine returns `Ok` the resulting value lies within
`[start, end]`; and for an inverted range (`start > end`) the engine
returns `InvalidRange` without registering any candidate, leaving the
value (and context) unchanged. -/
theorem c4_range_containment (start endv v : Nat) (ctx : Ctx) :
    (∀ ctx' v', chooseAndApplyMutation (rangeMutator start endv) ctx v =
        .res ctx' v' (.ok ()) → start ≤ v' ∧ v' ≤ endv)
    ∧ (endv < start → chooseAndApplyMutation (rangeMutator start endv) ctx v =
        .res ctx v (.error (.kind .invalidRange))) := by
  constructor
  · intro ctx' v' h
    by_cases hinv : endv < start
    · have hp : rangeMutator start endv ctx.shrink v = .fail .invalidRange := by
        unfold rangeMutator mutateInRangeProg
        rw [if_pos hinv]
      rw [engine_fail _ ctx v _ hp] at h
      exact absurd h (by simp)
    · by_cases hvs : v = start ∧ ctx.shrink = true
      · have hp : rangeMutator start endv ctx.shrink v = .done := by
          unfold rangeMutator mutateInRangeProg
          rw [if_neg hinv, if_pos hvs]
        rw [engine_done _ ctx v hp] at h
        exact absurd h (by simp)
      · have hp : rangeMutator start endv ctx.shrink v =
            MProg.reg (inRangeClosure start endv) .done := by
          unfold rangeMutator mutateInRangeProg
          rw [if_neg hinv, if_neg hvs]
        rw [engine_single _ ctx v _ hp] at h
        simp only [inRangeClosure] at h
        rcases hg : ((ctx.rng.next32).2).genRangeIncl start
            (if ctx.shrink = true then min v endv else endv) with _ | ⟨x, r2⟩
        · rw [hg] at h
          exact absurd h (by simp)
        · rw [hg] at h
          have h' : EngineOut.res ⟨r2, ctx.shrink⟩ x (.ok ()) =
              EngineOut.res ctx' v' (.ok ()) := h
          simp only [EngineOut.res.injEq] at h'
          obtain ⟨hlo, hhi⟩ := Rng.genRangeIncl_bounds hg
          have he : (if ctx.shrink = true then min v endv else endv) ≤ endv := by
            split
            · exact Nat.min_le_right v endv
            · exact Nat.le_refl endv
          have hv' : v' = x := h'.2.1.symm
          exact ⟨hv' ▸ hlo, hv' ▸ Nat.le_trans hhi he⟩
  · intro hinv
    have hp : rangeMutator start endv ctx.shrink v = .fail .invalidRange := by
      unfold rangeMutator mutateInRangeProg
      rw [if_pos hinv]
    exact engine_fail _ ctx v _ hp

/-- Witness: `c4_range_containment` applied at concrete runs: a successful
mutation of 7 within `3..=10` lands at 4 ∈ [3, 10], and the inverted
range `10..=2` yields `InvalidRange` leaving the value unchanged. -/
theorem c4_range_containment_witness :
    ((3 : Nat) ≤ 4 ∧ (4 : Nat) ≤ 10)
    ∧ ((2 : Nat) < 10
      ∧ chooseAndApplyMutation (rangeMutator 10 2) ⟨Rng.new 0, false⟩ 7 =
          .res ⟨Rng.new 0, false⟩ 7 (.error (.kind .invalidRange))) :=
  ⟨(c4_range_containment 3 10 7 ⟨Rng.new 0, false⟩).1
      ⟨⟨1876011003808476466⟩, false⟩ 4 (by decide),
   by decide,
   (c4_range_containment 10 2 7 ⟨Rng.new 0, false⟩).2 (by decide)⟩

/-- Shrinking zero with the `core_impls` u8 mutator registers nothing:
the engine reports `Exhausted` and the value stays 0. -/
theorem u8CI_zero_exhausted (rng : Rng) :
    chooseAndApplyMutation u8MutatorCI ⟨rng, true⟩ 0 =
      .res ⟨rng, true⟩ 0 (.error (.kind .exhausted)) :=
  engine_done _ _ _ (by simp [u8MutatorCI])

/-- One shrink step of the `core_impls` u8 mutator on a nonzero value:
the counting pass counts the single candidate, `gen_index(1)` advances
the generator, and the closure redraws uniformly from `0..v`
(exclusive), so the result is strictly below `v`. -/
theorem u8CI_shrink_step (rng : Rng) (v : Nat) (hv : 0 < v) :
    chooseAndApplyMutation u8MutatorCI ⟨rng, true⟩ v =
      .res ⟨((rng.next32).2).next32.2, true⟩ ((((rng.next32).2).next32.1) % v)
        (.ok ()) := by
  have hv' : ¬(v = 0) := by omega
  have hp : u8MutatorCI (Ctx.mk rng true).shrink v = .reg u8CIClosure .done := by
    simp [u8MutatorCI, hv']
  rw [engine_single _ _ _ _ hp]
  have hg : ((rng.next32).2).genRangeExcl 0 v =
      some ((((rng.next32).2).next32.1) % v, ((rng.next32).2).next32.2) := by
    unfold Rng.genRangeExcl
    rw [if_neg (by omega)]
    simp
  simp only [u8CIClosure, hg]
  simp

/-- Iterated shrink mutation with the `core_impls` u8 mutator: run the
engine until it returns an error (recording whether that error was
exhaustion) or the fuel runs out. -/
def iterShrinkCI : Nat → Rng → Nat → Rng × Nat × Bool
  | 0, rng, v => (rng, v, false)
  | fuel + 1, rng, v =>
    match chooseAndApplyMutation u8MutatorCI ⟨rng, true⟩ v with
    | .res ctx' v' (.ok _) => iterShrinkCI fuel ctx'.rng v'
    | .res ctx' v' (.error e) =>
      (ctx'.rng, v', if e = .kind .exhausted then true else false)
    | .fatal _ => (rng, v, false)

/-- C5 counterexample. With the `mutators.rs` `ints!` u8 mutator
in shrink mode on value 5 from generator state 5, the single registered
candidate draws from `0..=5` — the current value *inclusive* — and
redraws the value to 5 itself: the mutation reports `Ok` yet the value
has not moved strictly toward zero, so this successful shrink mutation
is not a strict redraw toward the domain's zero element and 5 is not a
fixed point that reports `Exhausted`. -/
theorem c5_strict_shrink_counterexample :
    chooseAndApplyMutation u8Mutator ⟨⟨5⟩, true⟩ 5 =
      .res ⟨⟨2587011477941047999⟩, true⟩ 5 (.ok ())
    ∧ ¬(5 < 5) :=
  ⟨by decide, by decide⟩

/-- C5 amended. For the default u8 mutator in shrink mode: a zero
value registers no candidate, so the engine reports `Exhausted` and the
value stays 0 (both the `mutators.rs` and the `core_impls.rs`
variants); otherwise exactly one candidate is registered which redraws
the value uniformly between zero and the current value — *inclusive* of
the current value in the `mutators.rs` variant, *strictly below* it in
the `core_impls.rs` variant — so a successful shrink mutation never
increases the value's distance from zero, and for the `core_impls.rs`
variant strictly decreases it, whence repeated shrink mutation reaches
the fixed point 0 and reports `Exhausted` within `value + 1` calls. -/
theorem c5_shrink_progress :
    (∀ rng : Rng, chooseAndApplyMutation u8Mutator ⟨rng, true⟩ 0 =
        .res ⟨rng, true⟩ 0 (.error (.kind .exhausted)))
    ∧ (∀ (rng : Rng) (v : Nat) (ctx' : Ctx) (v' : Nat),
        chooseAndApplyMutation u8Mutator ⟨rng, true⟩ v = .res ctx' v' (.ok ())
        → v' ≤ v)
    ∧ (∀ rng : Rng, chooseAndApplyMutation u8MutatorCI ⟨rng, true⟩ 0 =
        .res ⟨rng, true⟩ 0 (.error (.kind .exhausted)))
    ∧ (∀ (rng : Rng) (v : Nat), 0 < v →
        ∃ (rng' : Rng) (v' : Nat),
          chooseAndApplyMutation u8MutatorCI ⟨rng, true⟩ v =
            .res ⟨rng', true⟩ v' (.ok ()) ∧ v' < v)
    ∧ (∀ (v fuel : Nat) (rng : Rng), v < fuel →
        ∃ rng', iterShrinkCI fuel rng v = (rng', 0, true)) := by
  refine ⟨?_, ?_, u8CI_zero_exhausted, ?_, ?_⟩
  · intro rng
    exact engine_done _ _ _ (by simp [u8Mutator])
  · intro rng v ctx' v' h
    by_cases hv : v = 0
    · subst hv
      rw [engine_done u8Mutator ⟨rng, true⟩ 0 (by simp [u8Mutator])] at h
      exact absurd h (by simp)
    · have hp : u8Mutator (Ctx.mk rng true).shrink v =
          .reg u8ShrinkClosure .done := by
        simp [u8Mutator, hv]
      rw [engine_single _ _ _ _ hp] at h
      simp only [u8ShrinkClosure] at h
      rcases hg : ((rng.next32).2).genRangeIncl 0 v with _ | ⟨x, r2⟩
      · rw [hg] at h
        exact absurd h (by simp)
      · rw [hg] at h
        have h' : EngineOut.res ⟨r2, true⟩ x (.ok ()) =
            EngineOut.res ctx' v' (.ok ()) := h
        simp only [EngineOut.res.injEq] at h'
        obtain ⟨_, hub⟩ := Rng.genRangeIncl_bounds hg
        exact h'.2.1 ▸ hub
  · intro rng v hv
    exact ⟨_, _, u8CI_shrink_step rng v hv, Nat.mod_lt _ hv⟩
  · intro v
    induction v using Nat.strong_induction_on with
    | _ v ih =>
      intro fuel rng hv
      obtain ⟨f, rfl⟩ : ∃ f, fuel = f + 1 := ⟨fuel - 1, by omega⟩
      by_cases h0 : v = 0
      · subst h0
        refine ⟨rng, ?_⟩
        unfold iterShrinkCI
        rw [u8CI_zero_exhausted rng]
        simp
      · have hv0 : 0 < v := Nat.pos_of_ne_zero h0
        have hstep := u8CI_shrink_step rng v hv0
        have hlt : (((rng.next32).2).next32.1) % v < v := Nat.mod_lt _ hv0
        unfold iterShrinkCI
        rw [hstep]
        exact ih _ hlt f _ (by omega)

/-- Witness: `c5_shrink_progress` applied at concrete inputs: the `mutators.rs`
variant's successful shrink of 5 (from generator state 5) stays at
5 ≤ 5; the `core_impls` variant's shrink of 5 strictly decreases; and
six iterated `core_impls` shrink calls from 5 reach the exhausted fixed
point 0. -/
theorem c5_shrink_progress_witness :
    ((5 : Nat) ≤ 5)
    ∧ (∃ rng' v', chooseAndApplyMutation u8MutatorCI ⟨Rng.new 7, true⟩ 5 =
        .res ⟨rng', true⟩ v' (.ok ()) ∧ v' < 5)
    ∧ (∃ rng', iterShrinkCI 6 (Rng.new 7) 5 = (rng', 0, true)) :=
  ⟨c5_shrink_progress.2.1 ⟨5⟩ 5 ⟨⟨2587011477941047999⟩, true⟩ 5 (by decide),
   c5_shrink_progress.2.2.2.1 (Rng.new 7) 5 (by decide),
   c5_shrink_progress.2.2.2.2 5 6 (Rng.new 7) (by decide)⟩

/-- The shrink-loop invariant: if the incoming best-known value fails
the (pure) property with exactly the carried message, the pair returned
by the loop still does — a mutated clone replaces the pair only when
the property fails on it, other mutator errors skip the iteration, and
exhaustion ends the loop early with the pair intact. -/
theorem shrinkLoop_preserves {T : Type} (mf : MutFn T)
    (prop : T → Option String) :
    ∀ (fuel : Nat) (ctx : Ctx) (value : T) (message : String),
      prop value = some message →
      prop (shrinkLoop mf prop fuel ctx value message).1 =
        some (shrinkLoop mf prop fuel ctx value message).2 := by
  intro fuel
  induction fuel with
  | zero => intro ctx value message h; exact h
  | succ f ih =>
    intro ctx value message h
    rcases hmf : mf ctx value with ⟨ctx2, cand, r⟩
    simp only [shrinkLoop, hmf]
    rcases r with e | u
    · rcases e with _ | _ | msg
      · exact h
      · exact ih ctx2 value message h
      · exact ih ctx2 value message h
    · rcases hp : prop cand with _ | msg
      · exact ih ctx2 value message h
      · exact ih ctx2 cand msg hp

/-- C6 divergence. The `Mutating` loop of `Check::run` at a
concrete failing input: with a two-element corpus, a generator state
whose first `gen_index(2)` draw selects the last index 1, and a mutator
that reports `Exhausted`, the harness `swap_remove`s index 1 (leaving a
one-element corpus) and then falls through to re-check
`corpus[1]` — an out-of-bounds access that panics.  With a one-element
corpus the removal empties the corpus and the run correctly returns
success before any indexing. -/
theorem c6_exhausted_removal_oob :
    checkRunLoop (fun c v => (c, v, Except.error ErrKind.exhausted))
        (fun _ : Nat => none) 1000 1 ⟨Rng.new 10, false⟩ [0, 1] =
      CheckRes.fatal "index out of bounds"
    ∧ checkRunLoop (fun c v => (c, v, Except.error ErrKind.exhausted))
        (fun _ : Nat => none) 1000 1 ⟨Rng.new 0, false⟩ [5] =
      CheckRes.passed :=
  ⟨by decide, by decide⟩

/-- C7. During check-harness shrinking with a pure property: the
best-known failing value is replaced by the mutated clone only when the
property still fails on the clone, non-exhaustion mutator errors are
skipped without replacing it, exhaustion ends shrinking early, and
therefore the `CheckFailure` returned by `Check::shrink` always carries
a value on which the property fails together with that failure's
message. -/
theorem c7_shrink_keeps_failing_value {T : Type} (mf : MutFn T)
    (prop : T → Option String) (shrinkIters : Nat) (value : T)
    (message : String) (h : prop value = some message) :
    (∀ (fuel : Nat) (ctx : Ctx),
      prop (shrinkLoop mf prop fuel ctx value message).1 =
        some (shrinkLoop mf prop fuel ctx value message).2)
    ∧ ∃ v' m', checkShrink mf prop shrinkIters value message = .failed v' m'
        ∧ prop v' = some m' := by
  constructor
  · intro fuel ctx
    exact shrinkLoop_preserves mf prop fuel ctx value message h
  · refine ⟨(shrinkLoop mf prop shrinkIters ⟨Rng.defaultRng, true⟩ value message).1,
      (shrinkLoop mf prop shrinkIters ⟨Rng.defaultRng, true⟩ value message).2,
      rfl, ?_⟩
    exact shrinkLoop_preserves mf prop shrinkIters ⟨Rng.defaultRng, true⟩
      value message h

/-- Witness: `c7_shrink_keeps_failing_value` at a concrete shrink run: property
"value < 10", decrementing mutator, initial failing value 255. -/
theorem c7_shrink_keeps_failing_value_witness :
    (∀ (fuel : Nat) (ctx : Ctx),
      (fun v : Nat => if v < 10 then none else some "expected < 10")
          (shrinkLoop (fun c v => (c, v - 1, Except.ok ()))
            (fun v : Nat => if v < 10 then none else some "expected < 10")
            fuel ctx 255 "expected < 10").1 =
        some (shrinkLoop (fun c v => (c, v - 1, Except.ok ()))
            (fun v : Nat => if v < 10 then none else some "expected < 10")
            fuel ctx 255 "expected < 10").2)
    ∧ ∃ v' m',
        checkShrink (fun c v => (c, v - 1, Except.ok ()))
          (fun v : Nat => if v < 10 then none else some "expected < 10")
          20 255 "expected < 10" = .failed v' m'
        ∧ (fun v : Nat => if v < 10 then none else some "expected < 10") v' =
            some m' :=
  c7_shrink_keeps_failing_value (fun c v => (c, v - 1, Except.ok ()))
    (fun v : Nat => if v < 10 then none else some "expected < 10")
    20 255 "expected < 10" (by decide)

/-- Witness: `c10_bool_negation` applied at a concrete successful run: mutating
`true` with the default seed yields `false = !true`. -/
theorem c10_bool_negation_witness :
    chooseAndApplyMutation boolMutator ⟨Rng.defaultRng, false⟩ true =
      .res ⟨(Rng.defaultRng.next32).2, false⟩ false (.ok ())
    ∧ (false : Bool) = !true :=
  ⟨by decide,
   (c10_bool_negation ⟨Rng.defaultRng, false⟩ true).1
     ⟨(Rng.defaultRng.next32).2, false⟩ false (by decide)⟩

end Mutatis
